import Mathlib

/-!
Verification development for the MiBelletaraU expense-tracking client.

This file gives a shallow embedding of the client-side logic of the
repository and proves properties of it:

* the expense filter/aggregation routine of
  `src/screens/ExpensesSummaryScreen.tsx` (`applyFilters`, `loadExpenses`,
  `clearFilters`, `formatMoney`);
* the form validation rules of `src/screens/AddExpenseScreen.tsx`
  (`expenseSchema`), `src/screens/EditExpenseScreen.tsx` (`validate`) and
  `src/screens/RegisterScreen.tsx` (`registerSchema`).

Embedding conventions:

* JavaScript numbers are modelled as exact rationals (`ℚ`); none of the
  verified properties depends on binary floating-point rounding.
* A JavaScript `Date` value is modelled by its calendar fields
  (`JSDate`), with `getMonth`-style 0-based months.  Comparison of two
  `Date` values (`getTime` ordering) is embedded as comparison of the
  lexicographic field key `JSDate.key`, which agrees with epoch-millis
  ordering for field-valid dates read in one fixed timezone.  Stored
  expense dates (`'YYYY-MM-DD'` strings parsed with `new Date`) appear as
  the corresponding `JSDate`.
* String routines used by the code (`trim`, `toLowerCase`, `includes`,
  `parseFloat`, `Number`, `replace(',', '.')`) are embedded as
  structurally recursive functions on character lists so that they
  evaluate inside the kernel.  `parseFloat` / `Number` are modelled on
  the decimal literals the app feeds them (optional sign, integer and
  fraction digit runs); exponent and hex forms never occur in this code.
-/

/-- Calendar fields of a JavaScript `Date` value, in one fixed timezone.
`month` is 0-based as returned by `getMonth`; `day` is the 1-based day of
the month (`getDate`). -/
structure JSDate where
  year : ℕ
  month : ℕ
  day : ℕ
  hour : ℕ
  minute : ℕ
  second : ℕ
  ms : ℕ
deriving DecidableEq

/-- Lexicographic encoding of a `JSDate`'s fields.  For field-valid dates
(month < 12, day ≤ 31, hour < 24, …) it is monotone in the instant the
date denotes, so `d1.getTime() <= d2.getTime()` is embedded as
`d1.key ≤ d2.key`. -/
def JSDate.key (d : JSDate) : ℕ :=
  ((((((d.year * 12 + d.month) * 32 + d.day) * 24 + d.hour) * 60 +
        d.minute) * 60 + d.second)) * 1000 + d.ms

/-- The time-of-day fields lie in their calendar ranges. -/
def JSDate.validTime (d : JSDate) : Prop :=
  d.hour < 24 ∧ d.minute < 60 ∧ d.second < 60 ∧ d.ms < 1000

instance (d : JSDate) : Decidable d.validTime := by
  unfold JSDate.validTime; infer_instance

/-- A `Date` at midnight of the given calendar day, as produced by parsing
a stored `'YYYY-MM-DD'` expense date with `new Date`. -/
def mkDate (y m d : ℕ) : JSDate := ⟨y, m, d, 0, 0, 0, 0⟩

/-- Embedding of `end.setHours(23, 59, 59, 999)` from `applyFilters`:
the same calendar day at its last millisecond. -/
def endOfDay (d : JSDate) : JSDate :=
  ⟨d.year, d.month, d.day, 23, 59, 59, 999⟩

/-- One row of the remote `expenses` table as held by the client
(`type Expense` in `ExpensesSummaryScreen.tsx`). -/
structure Expense where
  id : String
  user_id : String
  name : String
  amount : ℚ
  date : JSDate
  description : Option String
deriving DecidableEq

/-- Embedding of `list.reduce((acc, exp) => acc + Number(exp.amount ?? 0), 0)`:
the sum of the `amount` field, as a left fold starting at 0. -/
def expSum (l : List Expense) : ℚ :=
  l.foldl (fun acc e => acc + e.amount) 0

/-! ### JavaScript string helpers -/

/-- Character-level ASCII lower-casing, embedding `toLowerCase` on the
strings this app compares (accented characters are left unchanged, which
only makes the embedded substring match case-sensitive on them). -/
def lowerChar (c : Char) : Char :=
  if 'A' ≤ c ∧ c ≤ 'Z' then Char.ofNat (c.toNat + 32) else c

/-- Embedding of `String.prototype.toLowerCase`. -/
def jsToLower (s : String) : String :=
  String.mk (s.data.map lowerChar)

/-- Embedding of `String.prototype.trim`: drop whitespace from both ends. -/
def jsTrim (s : String) : String :=
  String.mk (((s.data.dropWhile Char.isWhitespace).reverse.dropWhile
    Char.isWhitespace).reverse)

/-- Does `pat` occur at the head of `l`? -/
def listStartsWith : List Char → List Char → Bool
  | [], _ => true
  | _ :: _, [] => false
  | p :: ps, c :: cs => p == c && listStartsWith ps cs

/-- Does `pat` occur contiguously anywhere in `l`?  Embedding of
`String.prototype.includes`. -/
def listHasInfix (pat : List Char) : List Char → Bool
  | [] => listStartsWith pat []
  | c :: cs => listStartsWith pat (c :: cs) || listHasInfix pat cs

/-- Value of a digit character. -/
def digitVal (c : Char) : ℕ := c.toNat - 48

/-- Split off the maximal leading run of decimal digits, returning their
values and the rest of the input. -/
def takeDigits : List Char → List ℕ × List Char
  | [] => ([], [])
  | c :: cs =>
    if c.isDigit then
      let r := takeDigits cs
      (digitVal c :: r.1, r.2)
    else ([], c :: cs)

/-- Numeric value of a digit-value list read most-significant first. -/
def digitsVal (ds : List ℕ) : ℕ :=
  ds.foldl (fun acc d => acc * 10 + d) 0

/-- Sign / integer digits / fraction digits of a decimal literal, shared
by the `parseFloat` and `Number` embeddings.  The `Bool` is true for a
leading `'-'`. -/
def signSplit : List Char → Bool × List Char
  | '-' :: cs => (true, cs)
  | '+' :: cs => (false, cs)
  | cs => (false, cs)

/-- Rational value denoted by a parsed sign / integer digits / fraction
digits triple. -/
def ratOfParts (neg : Bool) (intDs fracDs : List ℕ) : ℚ :=
  (cond neg (-1) 1) *
    ((digitsVal intDs : ℚ) + (digitsVal fracDs : ℚ) / (10 : ℚ) ^ fracDs.length)

/-- Parse the longest numeric prefix of the input after skipping leading
whitespace: optional sign, integer digits, optional `'.'` and fraction
digits.  `none` models `NaN` (no digits at all). -/
def parseFloatParts (s : String) : Option (Bool × List ℕ × List ℕ) :=
  let cs := s.data.dropWhile Char.isWhitespace
  let sgn := signSplit cs
  let ip := takeDigits sgn.2
  let fracDs :=
    match ip.2 with
    | '.' :: r => (takeDigits r).1
    | _ => []
  if ip.1 = [] ∧ fracDs = [] then none
  else some (sgn.1, ip.1, fracDs)

/-- Embedding of JavaScript `parseFloat` on the inputs this app feeds it:
`none` models `NaN`. -/
def jsParseFloat (s : String) : Option ℚ :=
  (parseFloatParts s).map fun t => ratOfParts t.1 t.2.1 t.2.2

/-- Whole-string decimal parse underlying the `Number(...)` embedding:
the trimmed input must consist exactly of an optional sign, integer
digits and an optional fraction.  The empty (or all-whitespace) string is
mapped to the zero literal, as `Number('') === 0`. -/
def numberParts (s : String) : Option (Bool × List ℕ × List ℕ) :=
  let cs := (jsTrim s).data
  if cs = [] then some (false, [0], [])
  else
    let sgn := signSplit cs
    let ip := takeDigits sgn.2
    let rest :=
      match ip.2 with
      | '.' :: r => takeDigits r
      | _ => ([], ip.2)
    if ip.1 = [] ∧ rest.1 = [] then none
    else if rest.2 = [] then some (sgn.1, ip.1, rest.1)
    else none

/-- Embedding of JavaScript `Number(...)` on decimal-literal strings:
`none` models `NaN`. -/
def jsNumber (s : String) : Option ℚ :=
  (numberParts s).map fun t => ratOfParts t.1 t.2.1 t.2.2

/-- Replace the first `','` by `'.'` in a character list. -/
def replaceCommaChars : List Char → List Char
  | [] => []
  | c :: cs => if c = ',' then '.' :: cs else c :: replaceCommaChars cs

/-- Embedding of `value.replace(',', '.')` (string pattern `replace`
rewrites only the first occurrence). -/
def replaceComma (s : String) : String :=
  String.mk (replaceCommaChars s.data)

/-! ### The filter engine (`applyFilters` in `ExpensesSummaryScreen.tsx`) -/

/-- The five filter inputs of the summary screen: the two amount bounds
and the name are the raw text-field strings, the two dates come from the
date pickers. -/
structure FilterCriteria where
  searchName : String
  minAmount : String
  maxAmount : String
  startDate : Option JSDate
  endDate : Option JSDate
deriving DecidableEq

/-- Criteria with every field absent. -/
def emptyCriteria : FilterCriteria := ⟨"", "", "", none, none⟩

/-- Embedding of the `hasFilters` test at the top of `applyFilters`. -/
def hasFilters (c : FilterCriteria) : Bool :=
  decide (jsTrim c.searchName ≠ "") || decide (jsTrim c.minAmount ≠ "") ||
    decide (jsTrim c.maxAmount ≠ "") || c.startDate.isSome || c.endDate.isSome

/-- The `searchName` block of `applyFilters` (`list = list.filter(exp =>
exp.name.toLowerCase().includes(term))` guarded by `searchName.trim() !== ''`). -/
def stageName (c : FilterCriteria) (l : List Expense) : List Expense :=
  if jsTrim c.searchName ≠ "" then
    l.filter fun e =>
      listHasInfix (jsToLower (jsTrim c.searchName)).data (jsToLower e.name).data
  else l

/-- The `minAmount` block of `applyFilters` (`parseFloat` guarded by `isNaN`). -/
def stageMin (c : FilterCriteria) (l : List Expense) : List Expense :=
  match jsParseFloat c.minAmount with
  | some minv => l.filter fun e => decide (minv ≤ e.amount)
  | none => l

/-- The `maxAmount` block of `applyFilters`. -/
def stageMax (c : FilterCriteria) (l : List Expense) : List Expense :=
  match jsParseFloat c.maxAmount with
  | some maxv => l.filter fun e => decide (e.amount ≤ maxv)
  | none => l

/-- The `startDate` block of `applyFilters` (`d >= startDate`). -/
def stageStart (c : FilterCriteria) (l : List Expense) : List Expense :=
  match c.startDate with
  | some sd => l.filter fun e => decide (sd.key ≤ e.date.key)
  | none => l

/-- The `endDate` block of `applyFilters` (`d <= end` after
`end.setHours(23, 59, 59, 999)`). -/
def stageEnd (c : FilterCriteria) (l : List Expense) : List Expense :=
  match c.endDate with
  | some ed => l.filter fun e => decide (e.date.key ≤ (endOfDay ed).key)
  | none => l

/-- The successive reassignments of `list` in `applyFilters`, lines
140–173 of `ExpensesSummaryScreen.tsx`: the base list is `allExpenses`
when any filter is set and `monthExpenses` otherwise, and each filter
block runs in source order. -/
def filterPipeline (allExpenses monthExpenses : List Expense)
    (c : FilterCriteria) : List Expense :=
  stageEnd c (stageStart c (stageMax c (stageMin c
    (stageName c (if hasFilters c then allExpenses else monthExpenses)))))

/-- Embedding of `applyFilters`, lines 132–183 of
`ExpensesSummaryScreen.tsx`, as a function of the two lists it reads
(`allExpenses`, `monthExpenses`) and the criteria.  It returns the pair
written to `visibleExpenses` and `filteredTotal` (the subtotal is the
`reduce` over the filtered list). -/
def applyFilters (allExpenses monthExpenses : List Expense)
    (c : FilterCriteria) : List Expense × ℚ :=
  (filterPipeline allExpenses monthExpenses c,
    expSum (filterPipeline allExpenses monthExpenses c))

/-- The name constraint of a criteria set, as a per-expense predicate:
absent field, or case-folded substring match. -/
def nameOk (c : FilterCriteria) (e : Expense) : Bool :=
  if jsTrim c.searchName ≠ "" then
    listHasInfix (jsToLower (jsTrim c.searchName)).data (jsToLower e.name).data
  else true

/-- The minimum-amount constraint: absent (or unparsable) field, or
inclusive lower bound. -/
def minOk (c : FilterCriteria) (e : Expense) : Bool :=
  match jsParseFloat c.minAmount with
  | some minv => decide (minv ≤ e.amount)
  | none => true

/-- The maximum-amount constraint: absent (or unparsable) field, or
inclusive upper bound. -/
def maxOk (c : FilterCriteria) (e : Expense) : Bool :=
  match jsParseFloat c.maxAmount with
  | some maxv => decide (e.amount ≤ maxv)
  | none => true

/-- The start-date constraint: absent, or `new Date(exp.date) >= startDate`. -/
def startOk (c : FilterCriteria) (e : Expense) : Bool :=
  match c.startDate with
  | some sd => decide (sd.key ≤ e.date.key)
  | none => true

/-- The end-date constraint: absent, or
`new Date(exp.date) <= endOfDay endDate`. -/
def endOk (c : FilterCriteria) (e : Expense) : Bool :=
  match c.endDate with
  | some ed => decide (e.date.key ≤ (endOfDay ed).key)
  | none => true

/-- Conjunction of the five optional constraints of a criteria set. -/
def matchesCriteria (c : FilterCriteria) (e : Expense) : Bool :=
  nameOk c e && minOk c e && maxOk c e && startOk c e && endOk c e

theorem and5_reorder (a b c d e : Bool) :
    (e && d && c && b && a) = (a && b && c && d && e) := by
  cases a <;> cases b <;> cases c <;> cases d <;> cases e <;> rfl

theorem filter_of_true {p : Expense → Bool} (l : List Expense)
    (h : ∀ x, p x = true) : l.filter p = l := by
  rw [List.filter_congr fun x _ => h x, List.filter_true]

theorem stageName_eq (l : List Expense) (c : FilterCriteria) :
    stageName c l = l.filter (nameOk c) := by
  unfold stageName
  by_cases h : jsTrim c.searchName ≠ ""
  · rw [if_pos h]
    exact List.filter_congr fun x _ => by simp [nameOk, h]
  · rw [if_neg h]
    exact (filter_of_true l fun x => by simp [nameOk, h]).symm

theorem stageMin_eq (l : List Expense) (c : FilterCriteria) :
    stageMin c l = l.filter (minOk c) := by
  unfold stageMin
  rcases h : jsParseFloat c.minAmount with _ | m
  · exact (filter_of_true l fun x => by simp [minOk, h]).symm
  · exact List.filter_congr fun x _ => by simp [minOk, h]

theorem stageMax_eq (l : List Expense) (c : FilterCriteria) :
    stageMax c l = l.filter (maxOk c) := by
  unfold stageMax
  rcases h : jsParseFloat c.maxAmount with _ | M
  · exact (filter_of_true l fun x => by simp [maxOk, h]).symm
  · exact List.filter_congr fun x _ => by simp [maxOk, h]

theorem stageStart_eq (l : List Expense) (c : FilterCriteria) :
    stageStart c l = l.filter (startOk c) := by
  unfold stageStart
  rcases h : c.startDate with _ | sd
  · exact (filter_of_true l fun x => by simp [startOk, h]).symm
  · exact List.filter_congr fun x _ => by simp [startOk, h]

theorem stageEnd_eq (l : List Expense) (c : FilterCriteria) :
    stageEnd c l = l.filter (endOk c) := by
  unfold stageEnd
  rcases h : c.endDate with _ | ed
  · exact (filter_of_true l fun x => by simp [endOk, h]).symm
  · exact List.filter_congr fun x _ => by simp [endOk, h]

/-- The pipeline is the filter of the conjoined constraints over its base
list. -/
theorem filterPipeline_eq (aE mE : List Expense) (c : FilterCriteria) :
    filterPipeline aE mE c =
      (if hasFilters c then aE else mE).filter (matchesCriteria c) := by
  unfold filterPipeline
  rw [stageName_eq, stageMin_eq, stageMax_eq, stageStart_eq, stageEnd_eq,
    List.filter_filter, List.filter_filter, List.filter_filter,
    List.filter_filter,
    List.filter_congr (fun x _ =>
      and5_reorder (nameOk c x) (minOk c x) (maxOk c x) (startOk c x) (endOk c x))]
  rfl

/-- `applyFilters` is the filter of the conjoined constraints over its
base list, paired with that sublist's sum. -/
theorem applyFilters_eq (aE mE : List Expense) (c : FilterCriteria) :
    applyFilters aE mE c =
      ((if hasFilters c then aE else mE).filter (matchesCriteria c),
        expSum ((if hasFilters c then aE else mE).filter (matchesCriteria c))) := by
  unfold applyFilters
  rw [filterPipeline_eq]

/-! ### Month aggregator and summary-screen state (`loadExpenses`,
`clearFilters`) -/

/-- The current-month subset computed in `loadExpenses`, lines 100–103:
`d.getMonth() === currentMonth && d.getFullYear() === currentYear`. -/
def currentMonthExpenses (expenses : List Expense) (now : JSDate) :
    List Expense :=
  expenses.filter fun e => e.date.month == now.month && e.date.year == now.year

/-- The current-month total computed in `loadExpenses`, lines 106–109. -/
def currentMonthTotal (expenses : List Expense) (now : JSDate) : ℚ :=
  expSum (currentMonthExpenses expenses now)

/-- The five state variables of `ExpensesSummaryScreen` that hold expense
data and totals. -/
structure SummaryState where
  allExpenses : List Expense
  monthExpenses : List Expense
  visibleExpenses : List Expense
  monthTotal : ℚ
  filteredTotal : ℚ
deriving DecidableEq

/-- The state written by a successful `loadExpenses` run (lines 111–117)
given the fetched rows and the reference instant `new Date()`. -/
def loadExpensesSuccess (fetched : List Expense) (now : JSDate) :
    SummaryState :=
  ⟨fetched, currentMonthExpenses fetched now, currentMonthExpenses fetched now,
    currentMonthTotal fetched now, currentMonthTotal fetched now⟩

/-- The state written by pressing `Buscar` (`applyFilters`, lines
181–182): only `visibleExpenses` and `filteredTotal` change. -/
def applyFiltersState (s : SummaryState) (c : FilterCriteria) : SummaryState :=
  ⟨s.allExpenses, s.monthExpenses,
    (applyFilters s.allExpenses s.monthExpenses c).1,
    s.monthTotal,
    (applyFilters s.allExpenses s.monthExpenses c).2⟩

/-- The state written by pressing `Limpiar` (`clearFilters`, lines
193–194): back to the current-month snapshot. -/
def clearFiltersState (s : SummaryState) : SummaryState :=
  ⟨s.allExpenses, s.monthExpenses, s.monthExpenses, s.monthTotal, s.monthTotal⟩

/-- Displayed-total invariant of the summary screen: each of the two
displayed totals is the sum of the list it is displayed next to. -/
def summaryInv (s : SummaryState) : Prop :=
  s.filteredTotal = expSum s.visibleExpenses ∧
    s.monthTotal = expSum s.monthExpenses

/-! ### Form validation (`AddExpenseScreen`, `EditExpenseScreen`,
`RegisterScreen`) -/

/-- Name rule of `expenseSchema` in `AddExpenseScreen.tsx`:
`Yup.string().trim().min(3).required()` — the trimmed value must be
non-empty and at least 3 characters long. -/
def addNameOk (name : String) : Bool :=
  decide (3 ≤ (jsTrim name).length) && decide (jsTrim name ≠ "")

/-- Amount rule of `expenseSchema` in `AddExpenseScreen.tsx`: required,
and `Number(value.replace(',', '.'))` must be a number strictly greater
than 0. -/
def addAmountOk (amount : String) : Bool :=
  decide (amount ≠ "") &&
    match jsNumber (replaceComma amount) with
    | some n => decide (0 < n)
    | none => false

/-- Name rule of `validate` in `EditExpenseScreen.tsx`, lines 42–46: only
`!trimmedName` is rejected. -/
def editNameOk (name : String) : Bool :=
  decide (jsTrim name ≠ "")

/-- Amount rule of `validate` in `EditExpenseScreen.tsx`, lines 48–52:
`!amount.trim() || Number.isNaN(Number(amount)) || Number(amount) <= 0`
is rejected (no comma-to-dot replacement on this path). -/
def editAmountOk (amount : String) : Bool :=
  decide (jsTrim amount ≠ "") &&
    match jsNumber amount with
    | some n => decide (0 < n)
    | none => false

/-- The denylist of the `no-comun` test in `registerSchema`
(`RegisterScreen.tsx`). -/
def weakPasswords : List String :=
  ["123456", "1234567", "12345678", "123456789", "password", "contraseña"]

/-- Password rule of `registerSchema` in `RegisterScreen.tsx`, lines
53–74: required, `min(8)`, must match `[A-Za-z]`, `\d` and
`[^A-Za-z0-9]`, and must not be in the weak-password denylist. -/
def registerPasswordOk (password : String) : Bool :=
  decide (password ≠ "") &&
    decide (8 ≤ password.length) &&
    password.data.any (fun ch => ch.isAlpha) &&
    password.data.any (fun ch => ch.isDigit) &&
    password.data.any (fun ch => !(ch.isAlpha || ch.isDigit)) &&
    !(weakPasswords.contains password)

/-- Confirmation rule of `registerSchema`, lines 75–77: required and
`oneOf([Yup.ref('password')])`. -/
def registerConfirmOk (password confirm : String) : Bool :=
  decide (confirm ≠ "") && confirm == password

/-- A password/confirmation pair passes the password part of the
registration form. -/
def registerPasswordAccepted (password confirm : String) : Bool :=
  registerPasswordOk password && registerConfirmOk password confirm

/-! ### The money formatter (`formatMoney` in `ExpensesSummaryScreen.tsx`)

`formatMoney` is `value.toFixed(2)` followed by the global regex replace
that inserts a comma at every zero-width position where a non-boundary
lookahead of one or more digit triples succeeds, then a currency prefix.
The regex is embedded
positionally: scanning left to right, a comma is emitted before a
character exactly when the position is a non-boundary (`\B`: previous
and current character are both word characters, or the position is the
start of the string before a non-word character) and the maximal digit
run starting at the position has positive length divisible by 3 (that is
the condition for `(\d{3})+(?!\d)` to match there). -/

/-- The decimal digit character for `d % 10`. -/
def digitChar (d : ℕ) : Char := Char.ofNat (48 + d % 10)

/-- Base-10 rendering with structural fuel (any fuel above the digit
count gives the full rendering). -/
def natToDigitCore : ℕ → ℕ → List Char
  | 0, _ => []
  | fuel + 1, n =>
    if n < 10 then [digitChar n]
    else natToDigitCore fuel (n / 10) ++ [digitChar (n % 10)]

/-- Base-10 rendering of a natural number, most significant digit first. -/
def natToDigitList (n : ℕ) : List Char := natToDigitCore (n + 1) n

/-- Two-digit rendering of a value below 100 (the cents part of a
`toFixed(2)` output). -/
def pad2Chars (k : ℕ) : List Char :=
  if k < 10 then ['0', digitChar k] else natToDigitList k

/-- Number of cents rendered by `toFixed(2)` for a non-negative value:
rounding half away from zero at the second decimal. -/
def round100 (v : ℚ) : ℕ := (⌊v * 100 + 1 / 2⌋).toNat

/-- Digits of a `toFixed(2)` output for `n` cents: integer part, `'.'`,
two-digit fraction. -/
def fixedChars (n : ℕ) : List Char :=
  natToDigitList (n / 100) ++ '.' :: pad2Chars (n % 100)

/-- Character list of `value.toFixed(2)`. -/
def toFixed2Chars (v : ℚ) : List Char :=
  if v < 0 then '-' :: fixedChars (round100 (-v)) else fixedChars (round100 v)

/-- Regex word characters (`\w`): the inputs here only contain digits,
`'.'` and `'-'`. -/
def isWordChar (c : Char) : Bool := c.isAlphanum || c == '_'

/-- Length of the maximal digit run at the head of the list. -/
def digitPrefixLen : List Char → ℕ
  | [] => 0
  | c :: cs => if c.isDigit then digitPrefixLen cs + 1 else 0

/-- One left-to-right scan of the global replace
`.replace(/\B(?=(\d{3})+(?!\d))/g, ',')`: `prev` is the character before
the current position (`none` at the start of the string). -/
def insertCommasAux : Option Char → List Char → List Char
  | _, [] => []
  | prev, c :: cs =>
    let nonBoundary : Bool :=
      match prev with
      | none => !(isWordChar c)
      | some p => isWordChar p == isWordChar c
    let ahead := digitPrefixLen (c :: cs)
    if nonBoundary && (decide (3 ≤ ahead) && (ahead % 3 == 0)) then
      ',' :: c :: insertCommasAux (some c) cs
    else c :: insertCommasAux (some c) cs

/-- Embedding of `formatMoney`, lines 56–57 of
`ExpensesSummaryScreen.tsx`. -/
def formatMoney (v : ℚ) : String :=
  String.mk ('$' :: insertCommasAux none (toFixed2Chars v))

/-- Spec-side thousands grouping: commas split the digit string into
groups of three counted from its right end. -/
def groupThousands (ds : List Char) : List Char :=
  if _h : ds.length ≤ 3 then ds
  else groupThousands (ds.take (ds.length - 3)) ++ ',' :: ds.drop (ds.length - 3)
termination_by ds.length
decreasing_by simp [List.length_take]; omega

/-- Left-to-right characterization of 3-grouping: a comma goes before a
character exactly when the number of characters from it to the end is a
positive multiple of 3 and it is not the first character (`b` records
whether a character precedes). -/
def ins3 : Bool → List Char → List Char
  | _, [] => []
  | b, c :: cs =>
    if b && (decide (3 ≤ cs.length + 1) && ((cs.length + 1) % 3 == 0)) then
      ',' :: c :: ins3 true cs
    else c :: ins3 true cs

/-! ### Helper lemmas -/

theorem jsNumber_of_parts {s : String} {t : Bool × List ℕ × List ℕ}
    (h : numberParts s = some t) :
    jsNumber s = some (ratOfParts t.1 t.2.1 t.2.2) := by
  simp [jsNumber, h]

theorem applyFilters_snd (aE mE : List Expense) (c : FilterCriteria) :
    (applyFilters aE mE c).2 = expSum (applyFilters aE mE c).1 := rfl

/-! ### The claims -/

/-- C1.  For every pair of input lists and every criteria set,
`applyFilters` returns exactly the elements of its base list that satisfy
every specified constraint conjoined (`matchesCriteria`), the reported
subtotal is the sum of the `amount` field over that subset, and the
output preserves the relative order of the input (it is a sublist of the
base list). -/
theorem claim_C1 (aE mE : List Expense) (c : FilterCriteria) :
    applyFilters aE mE c =
      ((if hasFilters c then aE else mE).filter (matchesCriteria c),
        expSum ((if hasFilters c then aE else mE).filter (matchesCriteria c))) ∧
    ((applyFilters aE mE c).1).Sublist (if hasFilters c then aE else mE) := by
  refine ⟨applyFilters_eq aE mE c, ?_⟩
  rw [applyFilters_eq]
  exact List.filter_sublist _

/-- C2.  With every criteria field absent the filter engine returns its
input list unchanged and reports its full sum; in particular the empty
list yields the empty list with sum 0. -/
theorem claim_C2 :
    (∀ L : List Expense, applyFilters L L emptyCriteria = (L, expSum L)) ∧
    applyFilters ([] : List Expense) [] emptyCriteria = ([], 0) := by
  constructor
  · intro L
    rw [applyFilters_eq, ite_self,
      filter_of_true L fun e => by
        simp [matchesCriteria, nameOk, minOk, maxOk, startOk, endOk,
          emptyCriteria, show jsTrim "" = "" from rfl,
          show jsParseFloat "" = none from rfl]]
  · decide

/-- Expense examples from the spec's month-aggregator test property. -/
def exMay1 : Expense := ⟨"1", "u", "a", 10, mkDate 2024 4 1, none⟩

def exMay31 : Expense := ⟨"2", "u", "b", 20, mkDate 2024 4 31, none⟩

def exJun1 : Expense := ⟨"3", "u", "c", 5, mkDate 2024 5 1, none⟩

/-- The reference instant 2024-05-15 (month field 4 is May, 0-based). -/
def exNow : JSDate := mkDate 2024 4 15

/-- C4.  The month aggregator keeps exactly the expenses whose calendar
month and year equal the reference instant's (not a rolling window), and
sums their amounts; on the spec's example (May 1, May 31, June 1 with
"now" on May 15) it keeps the first two and reports 30. -/
theorem claim_C4 :
    (∀ (e : Expense) (L : List Expense) (now : JSDate),
        e ∈ currentMonthExpenses L now ↔
          e ∈ L ∧ e.date.month = now.month ∧ e.date.year = now.year) ∧
    currentMonthExpenses [exMay1, exMay31, exJun1] exNow = [exMay1, exMay31] ∧
    currentMonthTotal [exMay1, exMay31, exJun1] exNow = 30 := by
  refine ⟨?_, ?_, ?_⟩
  · intro e L now
    simp [currentMonthExpenses, List.mem_filter, and_assoc]
  · decide
  · rw [currentMonthTotal,
      show currentMonthExpenses [exMay1, exMay31, exJun1] exNow
          = [exMay1, exMay31] from by decide]
    norm_num [expSum, exMay1, exMay31]

/-- C10.  The summary-screen invariant — the displayed filtered subtotal
is the sum of the visible list and the displayed month total is the sum
of the month list — holds after a successful `loadExpenses` and is
preserved by `applyFilters` and by `clearFilters`. -/
theorem claim_C10 :
    (∀ (L : List Expense) (now : JSDate),
        summaryInv (loadExpensesSuccess L now)) ∧
    (∀ (s : SummaryState) (c : FilterCriteria),
        summaryInv s → summaryInv (applyFiltersState s c)) ∧
    (∀ s : SummaryState, summaryInv s → summaryInv (clearFiltersState s)) := by
  refine ⟨fun L now => ⟨rfl, rfl⟩, fun s c h => ⟨?_, h.2⟩, fun s h => ⟨h.2, h.2⟩⟩
  exact applyFilters_snd s.allExpenses s.monthExpenses c

/-- Witness for C10 at a concrete state satisfying the invariant. -/
theorem claim_C10_witness :
    summaryInv (applyFiltersState ⟨[], [], [], 0, 0⟩ emptyCriteria) ∧
    summaryInv (clearFiltersState ⟨[], [], [], 0, 0⟩) :=
  ⟨claim_C10.2.1 ⟨[], [], [], 0, 0⟩ emptyCriteria ⟨rfl, rfl⟩,
    claim_C10.2.2 ⟨[], [], [], 0, 0⟩ ⟨rfl, rfl⟩⟩

/-- Criteria consisting of a date range only. -/
def dateRangeCriteria (sd ed : JSDate) : FilterCriteria :=
  ⟨"", "", "", some sd, some ed⟩

/-- C3 (amended).  The end of the date range is inclusive of the whole
end day: any expense whose date lies on the `endDate` calendar day (with
field-valid time) passes the end bound, which is shifted to 23:59:59.999.
The start bound, however, compares raw instants (`d >= startDate` with no
start-of-day normalization): an expense dated on the `startDate` day is
retained when the `startDate` instant is at midnight of that day, and in
general exactly when the bound instant is at or before the expense's
instant. -/
theorem claim_C3 :
    (∀ d ed : JSDate, d.year = ed.year → d.month = ed.month →
        d.day = ed.day → d.validTime → d.key ≤ (endOfDay ed).key) ∧
    (∀ d sd : JSDate, sd.year = d.year → sd.month = d.month →
        sd.day = d.day → sd.hour = 0 → sd.minute = 0 → sd.second = 0 →
        sd.ms = 0 → sd.key ≤ d.key) ∧
    (∀ (e : Expense) (L : List Expense) (sd ed : JSDate),
        e ∈ (applyFilters L L (dateRangeCriteria sd ed)).1 ↔
          e ∈ L ∧ sd.key ≤ e.date.key ∧ e.date.key ≤ (endOfDay ed).key) := by
  refine ⟨?_, ?_, ?_⟩
  · intro d ed hy hm hd hv
    obtain ⟨hh, hmi, hs, hms⟩ := hv
    simp only [JSDate.key, endOfDay]
    omega
  · intro d sd hy hm hd hh hmi hs hms
    simp only [JSDate.key]
    omega
  · intro e L sd ed
    rw [applyFilters_eq]
    simp only [show hasFilters (dateRangeCriteria sd ed) = true from rfl,
      if_pos, List.mem_filter, matchesCriteria, nameOk, minOk, maxOk,
      startOk, endOk, dateRangeCriteria]
    simp [show jsTrim "" = "" from rfl, show jsParseFloat "" = none from rfl,
      and_assoc]

/-- Counterexample to C3 as stated: an expense dated exactly on the
`startDate` calendar day (at the midnight instant its stored
`'YYYY-MM-DD'` date parses to) is dropped when the picker-supplied
`startDate` carries the time-of-day 12:00. -/
theorem claim_C3_cex :
    (⟨"1", "u", "x", 10, mkDate 2024 4 15, none⟩ : Expense).date.year =
        (⟨2024, 4, 15, 12, 0, 0, 0⟩ : JSDate).year ∧
    (⟨"1", "u", "x", 10, mkDate 2024 4 15, none⟩ : Expense).date.month =
        (⟨2024, 4, 15, 12, 0, 0, 0⟩ : JSDate).month ∧
    (⟨"1", "u", "x", 10, mkDate 2024 4 15, none⟩ : Expense).date.day =
        (⟨2024, 4, 15, 12, 0, 0, 0⟩ : JSDate).day ∧
    (applyFilters [⟨"1", "u", "x", 10, mkDate 2024 4 15, none⟩]
        [⟨"1", "u", "x", 10, mkDate 2024 4 15, none⟩]
        ⟨"", "", "", some ⟨2024, 4, 15, 12, 0, 0, 0⟩, none⟩).1 = [] := by
  decide

/-- Witness for C3 at concrete dates: the end bound keeps a midnight
expense dated on the end day, and a midnight start bound keeps an
expense dated on the start day. -/
theorem claim_C3_witness :
    (mkDate 2024 4 15).key ≤ (endOfDay (mkDate 2024 4 15)).key ∧
    (mkDate 2024 4 15).key ≤ (⟨2024, 4, 15, 12, 0, 0, 0⟩ : JSDate).key :=
  ⟨claim_C3.1 (mkDate 2024 4 15) (mkDate 2024 4 15) rfl rfl rfl (by decide),
    claim_C3.2.1 ⟨2024, 4, 15, 12, 0, 0, 0⟩ (mkDate 2024 4 15)
      rfl rfl rfl rfl rfl rfl rfl⟩

/-- Criteria consisting of a minimum-amount string only. -/
def minCriteria (s : String) : FilterCriteria := ⟨"", s, "", none, none⟩

/-- C5.  An unparsable amount bound is treated as absent and never as an
error: `parseFloat` returns `none` (NaN) on `"abc"` and the engine then
applies no amount constraint, so any criteria set whose bounds are
unparsable and whose other fields are absent returns the list unchanged.
A parsable bound such as `"15"` is applied as an inclusive lower bound. -/
theorem claim_C5 :
    jsParseFloat "abc" = none ∧
    jsParseFloat "15" = some 15 ∧
    (∀ L : List Expense,
        applyFilters L L (minCriteria "15") =
          (L.filter fun e => decide ((15 : ℚ) ≤ e.amount),
            expSum (L.filter fun e => decide ((15 : ℚ) ≤ e.amount)))) ∧
    (∀ (c : FilterCriteria) (L : List Expense),
        jsParseFloat c.minAmount = none → jsParseFloat c.maxAmount = none →
        jsTrim c.searchName = "" → c.startDate = none → c.endDate = none →
        applyFilters L L c = (L, expSum L)) := by
  have h15 : jsParseFloat "15" = some 15 := by
    rw [jsParseFloat, show parseFloatParts "15" = some (false, [1, 5], [])
      from by decide]
    simp only [Option.map_some']
    norm_num [ratOfParts, show digitsVal [1, 5] = 15 from by decide,
      show digitsVal ([] : List ℕ) = 0 from rfl]
  refine ⟨by decide, h15, ?_, ?_⟩
  · intro L
    have hm : ∀ e : Expense,
        matchesCriteria (minCriteria "15") e = decide ((15 : ℚ) ≤ e.amount) :=
      fun e => by
        simp [matchesCriteria, nameOk, minOk, maxOk, startOk, endOk,
          minCriteria, h15, show jsTrim "" = "" from rfl,
          show jsParseFloat "" = none from rfl]
    rw [applyFilters_eq,
      if_pos (show hasFilters (minCriteria "15") = true from by decide),
      List.filter_congr fun e _ => hm e]
  · intro c L hmin hmax hname hsd hed
    rw [applyFilters_eq, ite_self,
      filter_of_true L fun e => by
        simp [matchesCriteria, nameOk, minOk, maxOk, startOk, endOk,
          hmin, hmax, hname, hsd, hed]]

/-- Witness for C5: the unparsable bound `"abc"` leaves a one-element
list unconstrained. -/
theorem claim_C5_witness :
    applyFilters [⟨"1", "u", "x", 7, mkDate 2024 4 1, none⟩]
        [⟨"1", "u", "x", 7, mkDate 2024 4 1, none⟩] (minCriteria "abc") =
      ([⟨"1", "u", "x", 7, mkDate 2024 4 1, none⟩], 7) := by
  rw [claim_C5.2.2.2 (minCriteria "abc")
    [⟨"1", "u", "x", 7, mkDate 2024 4 1, none⟩]
    (by decide) (by decide) (by decide) rfl rfl]
  norm_num [expSum]

/-- Characterization of the add-path amount rule. -/
theorem addAmountOk_iff (s : String) :
    addAmountOk s = true ↔
      (s ≠ "" ∧ ∃ n : ℚ, jsNumber (replaceComma s) = some n ∧ 0 < n) := by
  unfold addAmountOk
  rcases h : jsNumber (replaceComma s) with _ | n <;> simp [h]

/-- Characterization of the edit-path amount rule. -/
theorem editAmountOk_iff (s : String) :
    editAmountOk s = true ↔
      (jsTrim s ≠ "" ∧ ∃ n : ℚ, jsNumber s = some n ∧ 0 < n) := by
  unfold editAmountOk
  rcases h : jsNumber s with _ | n <;> simp [h]

theorem jsNumber_450 : jsNumber "4.50" = some (9 / 2) := by
  rw [jsNumber, show numberParts "4.50" = some (false, [4], [5, 0])
    from by decide]
  simp only [Option.map_some']
  norm_num [ratOfParts, show digitsVal [4] = 4 from by decide,
    show digitsVal [5, 0] = 50 from by decide]

theorem jsNumber_zero : jsNumber "0" = some 0 := by
  rw [jsNumber, show numberParts "0" = some (false, [0], []) from by decide]
  simp only [Option.map_some']
  norm_num [ratOfParts, show digitsVal [0] = 0 from rfl,
    show digitsVal ([] : List ℕ) = 0 from rfl]

theorem jsNumber_neg5 : jsNumber "-5" = some (-5) := by
  rw [jsNumber, show numberParts "-5" = some (true, [5], []) from by decide]
  simp only [Option.map_some']
  norm_num [ratOfParts, show digitsVal [5] = 5 from rfl,
    show digitsVal ([] : List ℕ) = 0 from rfl]

/-- C6 (amended).  Amount validation accepts a string iff it parses to a
number strictly greater than 0, but the two paths parse differently: the
add path (`expenseSchema`) first replaces a comma by a dot, so it accepts
either decimal separator, while the edit path (`validate`) feeds the raw
string to `Number`, so a comma-separated amount is unparsable and
rejected there.  `"0"` and `"-5"` are rejected on both paths; `"4.50"`
is accepted on both; `"4,50"` is accepted on add and rejected on edit. -/
theorem claim_C6 :
    (∀ s : String, addAmountOk s = true ↔
        (s ≠ "" ∧ ∃ n : ℚ, jsNumber (replaceComma s) = some n ∧ 0 < n)) ∧
    (∀ s : String, editAmountOk s = true ↔
        (jsTrim s ≠ "" ∧ ∃ n : ℚ, jsNumber s = some n ∧ 0 < n)) ∧
    addAmountOk "4.50" = true ∧ addAmountOk "4,50" = true ∧
    addAmountOk "0" = false ∧ addAmountOk "-5" = false ∧
    editAmountOk "4.50" = true ∧ editAmountOk "4,50" = false ∧
    editAmountOk "0" = false ∧ editAmountOk "-5" = false := by
  refine ⟨addAmountOk_iff, editAmountOk_iff, ?_, ?_, ?_, ?_, ?_, by decide,
    ?_, ?_⟩
  · exact (addAmountOk_iff _).mpr ⟨by decide, 9 / 2,
      by rw [show replaceComma "4.50" = "4.50" from by decide, jsNumber_450],
      by norm_num⟩
  · exact (addAmountOk_iff _).mpr ⟨by decide, 9 / 2,
      by rw [show replaceComma "4,50" = "4.50" from by decide, jsNumber_450],
      by norm_num⟩
  · have h := addAmountOk_iff "0"
    rw [show replaceComma "0" = "0" from by decide, jsNumber_zero] at h
    simp only [Option.some.injEq] at h
    simpa using h
  · have h := addAmountOk_iff "-5"
    rw [show replaceComma "-5" = "-5" from by decide, jsNumber_neg5] at h
    simp only [Option.some.injEq] at h
    norm_num at h
    exact h
  · exact (editAmountOk_iff _).mpr ⟨by decide, 9 / 2, jsNumber_450,
      by norm_num⟩
  · have h := editAmountOk_iff "0"
    rw [jsNumber_zero] at h
    simp only [Option.some.injEq] at h
    simpa using h
  · have h := editAmountOk_iff "-5"
    rw [jsNumber_neg5] at h
    simp only [Option.some.injEq] at h
    norm_num at h
    exact h

/-- Counterexample to C6 as stated: the edit path does not accept the
comma decimal separator — `Number('4,50')` is NaN there, so `"4,50"` is
rejected, where the claim requires acceptance on both paths. -/
theorem claim_C6_cex :
    jsNumber "4,50" = none ∧ editAmountOk "4,50" = false := by decide

/-- C7 (amended).  Name validation differs between the two expense-entry
paths: the add path (`expenseSchema`) requires the trimmed name to be
non-empty and at least 3 characters, while the edit path (`validate`)
only requires it to be non-empty after trimming — so `"ab"` is rejected
on add but accepted on edit. -/
theorem claim_C7 :
    (∀ s : String, addNameOk s = true ↔
        (jsTrim s ≠ "" ∧ 3 ≤ (jsTrim s).length)) ∧
    (∀ s : String, editNameOk s = true ↔ jsTrim s ≠ "") ∧
    addNameOk "ab" = false ∧ addNameOk "abc" = true ∧
    editNameOk "ab" = true ∧ editNameOk " " = false := by
  refine ⟨?_, ?_, by decide, by decide, by decide, by decide⟩
  · intro s
    simp [addNameOk, and_comm]
  · intro s
    simp [editNameOk]

/-- Counterexample to C7 as stated: the edit path accepts the two-letter
name `"ab"`, which the claim requires both paths to reject. -/
theorem claim_C7_cex :
    editNameOk "ab" = true ∧ (jsTrim "ab").length < 3 := by decide

/-- C9.  The registration password is accepted iff it is at least 8
characters long, contains a letter, a digit and a non-alphanumeric
character, is not in the weak-password denylist, and equals the entered
confirmation; `"abcdefg1"` is rejected (no special character) and
`"abcdefg1!"` is accepted. -/
theorem claim_C9 :
    (∀ p conf : String,
        registerPasswordAccepted p conf = true ↔
          (8 ≤ p.length ∧ (∃ ch ∈ p.data, ch.isAlpha) ∧
            (∃ ch ∈ p.data, ch.isDigit) ∧
            (∃ ch ∈ p.data, ¬(ch.isAlpha ∨ ch.isDigit)) ∧
            p ∉ weakPasswords ∧ conf = p)) ∧
    registerPasswordAccepted "abcdefg1" "abcdefg1" = false ∧
    registerPasswordAccepted "abcdefg1!" "abcdefg1!" = true := by
  refine ⟨?_, by decide, by decide⟩
  intro p conf
  unfold registerPasswordAccepted registerPasswordOk registerConfirmOk
  simp only [Bool.and_eq_true, decide_eq_true_eq, List.any_eq_true,
    Bool.not_eq_true', beq_iff_eq, Bool.or_eq_true, not_or]
  constructor
  · rintro ⟨⟨⟨⟨⟨⟨hne, hlen⟩, ha⟩, hd⟩, hs⟩, hw⟩, hcne, hcp⟩
    refine ⟨hlen, ha, hd, ?_, by simpa using hw, hcp⟩
    obtain ⟨ch, hch, hsp⟩ := hs
    exact ⟨ch, hch, by simpa [not_or] using hsp⟩
  · rintro ⟨hlen, ha, hd, hs, hw, hcp⟩
    have hne : p ≠ "" := by
      intro h
      rw [h] at hlen
      simp at hlen
    refine ⟨⟨⟨⟨⟨⟨hne, hlen⟩, ha⟩, hd⟩, ?_⟩, by simpa using hw⟩,
      hcp ▸ hne, hcp⟩
    obtain ⟨ch, hch, hsp⟩ := hs
    exact ⟨ch, hch, by simpa [not_or] using hsp⟩

/-! ### Lemmas for the money formatter -/

theorem isWordChar_digit {c : Char} (h : c.isDigit = true) :
    isWordChar c = true := by
  simp [isWordChar, Char.isAlphanum, h]

theorem digitChar_isDigit (d : ℕ) : (digitChar d).isDigit = true := by
  have h : d % 10 < 10 := Nat.mod_lt _ (by omega)
  have : ∀ k < 10, (Char.ofNat (48 + k)).isDigit = true := by decide
  exact this (d % 10) h

theorem natToDigitCore_ne_nil (f n : ℕ) : natToDigitCore (f + 1) n ≠ [] := by
  rw [natToDigitCore]
  split
  · simp
  · simp

theorem natToDigitList_ne_nil (n : ℕ) : natToDigitList n ≠ [] :=
  natToDigitCore_ne_nil n n

theorem natToDigitCore_digits (f : ℕ) :
    ∀ n, ∀ c ∈ natToDigitCore f n, c.isDigit = true := by
  induction f with
  | zero => intro n c hc; simp [natToDigitCore] at hc
  | succ f ih =>
    intro n c hc
    rw [natToDigitCore] at hc
    split at hc
    · rw [List.mem_singleton] at hc
      exact hc ▸ digitChar_isDigit n
    · rcases List.mem_append.mp hc with h | h
      · exact ih (n / 10) c h
      · rw [List.mem_singleton] at h
        exact h ▸ digitChar_isDigit (n % 10)

theorem natToDigitList_digits (n : ℕ) :
    ∀ c ∈ natToDigitList n, c.isDigit = true :=
  natToDigitCore_digits (n + 1) n

theorem natToDigitCore_small (f n : ℕ) (hf : 1 ≤ f) (hn : n < 10) :
    natToDigitCore f n = [digitChar n] := by
  cases f with
  | zero => omega
  | succ f => rw [natToDigitCore, if_pos hn]

theorem pad2Chars_shape {k : ℕ} (hk : k < 100) :
    ∃ a b : Char, pad2Chars k = [a, b] ∧ a.isDigit = true ∧
      b.isDigit = true := by
  unfold pad2Chars
  by_cases h : k < 10
  · exact ⟨'0', digitChar k, by simp [h], by decide, digitChar_isDigit k⟩
  · rw [if_neg h, natToDigitList, natToDigitCore, if_neg h,
      natToDigitCore_small k (k / 10) (by omega) (by omega)]
    exact ⟨digitChar (k / 10), digitChar (k % 10), rfl,
      digitChar_isDigit _, digitChar_isDigit _⟩

theorem digitPrefixLen_append (ds r : List Char)
    (hds : ∀ c ∈ ds, c.isDigit = true) (hr : digitPrefixLen r = 0) :
    digitPrefixLen (ds ++ r) = ds.length := by
  induction ds with
  | nil => simpa using hr
  | cons c cs ih =>
    have hc : c.isDigit = true := hds c (List.mem_cons_self c cs)
    show digitPrefixLen (c :: (cs ++ r)) = cs.length + 1
    rw [digitPrefixLen, if_pos hc,
      ih fun x hx => hds x (List.mem_cons_of_mem c hx)]

theorem insAux_eq_ins3 (ds : List Char) (hds : ∀ c ∈ ds, c.isDigit = true)
    (a b : Char) (ha : a.isDigit = true) (hb : b.isDigit = true) :
    ∀ p : Char, p.isDigit = true →
      insertCommasAux (some p) (ds ++ '.' :: a :: b :: []) =
        ins3 true ds ++ '.' :: a :: b :: [] := by
  induction ds with
  | nil =>
    intro p hp
    simp [insertCommasAux, ins3, isWordChar_digit hp, isWordChar_digit ha,
      isWordChar_digit hb, digitPrefixLen, hb,
      show isWordChar '.' = false from by decide,
      show ('.').isDigit = false from by decide]
  | cons c cs ih =>
    intro p hp
    have hc : c.isDigit = true := hds c (List.mem_cons_self c cs)
    have hcs : ∀ x ∈ cs, x.isDigit = true :=
      fun x hx => hds x (List.mem_cons_of_mem c hx)
    have hlen : digitPrefixLen (c :: (cs ++ '.' :: a :: b :: [])) =
        cs.length + 1 := by
      rw [digitPrefixLen, if_pos hc,
        digitPrefixLen_append cs ('.' :: a :: b :: []) hcs
          (by simp [digitPrefixLen])]
    simp only [List.cons_append, insertCommasAux, ins3, List.append_eq,
      isWordChar_digit hp, isWordChar_digit hc, beq_self_eq_true,
      Bool.true_and]
    generalize hX : digitPrefixLen (c :: (cs ++ '.' :: a :: b :: [])) = X
    rw [hX] at hlen
    subst hlen
    cases hcond : decide (3 ≤ cs.length + 1) && ((cs.length + 1) % 3 == 0) <;>
      simp only [hcond, if_true, if_false, Bool.false_eq_true,
        Bool.true_eq_false, ite_true, ite_false, ih hcs c hc,
        List.cons_append, List.nil_append]

theorem insertCommas_fixed (ds : List Char) (hne : ds ≠ [])
    (hds : ∀ c ∈ ds, c.isDigit = true) (a b : Char)
    (ha : a.isDigit = true) (hb : b.isDigit = true) :
    insertCommasAux none (ds ++ '.' :: a :: b :: []) =
      ins3 false ds ++ '.' :: a :: b :: [] := by
  cases ds with
  | nil => exact absurd rfl hne
  | cons c cs =>
    have hc : c.isDigit = true := hds c (List.mem_cons_self c cs)
    have hcs : ∀ x ∈ cs, x.isDigit = true :=
      fun x hx => hds x (List.mem_cons_of_mem c hx)
    simp only [List.cons_append, insertCommasAux, ins3,
      isWordChar_digit hc, Bool.false_and, Bool.not_true, if_neg]
    simp [insAux_eq_ins3 cs hcs a b ha hb c hc]

theorem ins3_short (ds : List Char) (h : ds.length ≤ 2) :
    ∀ b : Bool, ins3 b ds = ds := by
  induction ds with
  | nil => intro b; rfl
  | cons c cs ih =>
    intro b
    have : ¬ 3 ≤ cs.length + 1 := by simp at h; omega
    simp only [ins3, decide_eq_false this, Bool.false_and, Bool.and_false,
      if_neg, Bool.false_eq_true, not_false_iff]
    rw [ih (by simp at h; omega) true]

theorem ins3_three (y1 y2 y3 : Char) :
    ins3 true [y1, y2, y3] = ',' :: y1 :: y2 :: y3 :: [] := by
  simp [ins3]

theorem ins3_split (xs ys : List Char) (b : Bool) (hne : xs ≠ [])
    (hys : ys.length = 3) : ins3 b (xs ++ ys) = ins3 b xs ++ ',' :: ys := by
  induction xs generalizing b with
  | nil => exact absurd rfl hne
  | cons x xs ih =>
    obtain ⟨y1, y2, y3, rfl⟩ := List.length_eq_three.mp hys
    cases xs with
    | nil =>
      simp [ins3]
    | cons x2 xs2 =>
      have hlen : (x2 :: xs2 ++ [y1, y2, y3] : List Char).length + 1 =
          xs2.length + 5 := by simp
      have hlen2 : (x2 :: xs2 : List Char).length + 1 = xs2.length + 2 := by
        simp
      have hcond : (decide (3 ≤ xs2.length + 5) && ((xs2.length + 5) % 3 == 0))
          = (decide (3 ≤ xs2.length + 2) && ((xs2.length + 2) % 3 == 0)) := by
        by_cases h3 : (xs2.length + 2) % 3 = 0
        · have h5 : (xs2.length + 5) % 3 = 0 := by omega
          have hge : 3 ≤ xs2.length + 2 := by omega
          simp [h3, h5, hge, show 3 ≤ xs2.length + 5 from by omega]
        · have h5 : ¬ (xs2.length + 5) % 3 = 0 := by omega
          have e5 : ((xs2.length + 5) % 3 == 0) = false :=
            beq_eq_false_iff_ne.mpr h5
          have e2 : ((xs2.length + 2) % 3 == 0) = false :=
            beq_eq_false_iff_ne.mpr h3
          simp [e5, e2]
      show ins3 b (x :: (x2 :: xs2 ++ [y1, y2, y3])) = _
      rw [ins3, ins3]
      rw [show ((x2 :: xs2 ++ [y1, y2, y3] : List Char).length + 1) =
        xs2.length + 5 from by simp]
      rw [show ((x2 :: xs2 : List Char).length + 1) = xs2.length + 2 from
        by simp]
      rw [hcond, ih true (List.cons_ne_nil x2 xs2)]
      cases hc2 : decide (3 ≤ xs2.length + 2) && ((xs2.length + 2) % 3 == 0) <;>
        cases b <;> simp

theorem ins3_eq_group : ∀ (n : ℕ) (ds : List Char), ds.length ≤ n →
    ins3 false ds = groupThousands ds := by
  intro n
  induction n with
  | zero =>
    intro ds h
    have hnil : ds = [] := List.length_eq_zero.mp (Nat.le_zero.mp h)
    subst hnil
    rw [groupThousands]
    simp [ins3]
  | succ n ih =>
    intro ds h
    by_cases h3 : ds.length ≤ 3
    · rw [groupThousands, dif_pos h3]
      cases ds with
      | nil => rfl
      | cons c cs =>
        rw [ins3]
        simp only [Bool.false_and, if_neg, Bool.false_eq_true,
          not_false_iff]
        rw [ins3_short cs (by simp at h3; omega) true]
    · have h4 : 4 ≤ ds.length := by omega
      have hsplit := List.take_append_drop (ds.length - 3) ds
      have htake : (ds.take (ds.length - 3)).length = ds.length - 3 := by
        rw [List.length_take]
        omega
      have hdrop : (ds.drop (ds.length - 3)).length = 3 := by
        rw [List.length_drop]
        omega
      have htne : ds.take (ds.length - 3) ≠ [] := by
        intro hx
        rw [hx] at htake
        simp at htake
        omega
      calc ins3 false ds
          = ins3 false (ds.take (ds.length - 3) ++ ds.drop (ds.length - 3)) := by
            rw [hsplit]
        _ = ins3 false (ds.take (ds.length - 3)) ++
              ',' :: ds.drop (ds.length - 3) :=
            ins3_split _ _ false htne hdrop
        _ = groupThousands (ds.take (ds.length - 3)) ++
              ',' :: ds.drop (ds.length - 3) := by
            rw [ih (ds.take (ds.length - 3)) (by omega)]
        _ = groupThousands ds := by
            conv_rhs => rw [groupThousands]
            rw [dif_neg h3]

/-- C8.  On non-negative amounts `formatMoney` renders the half-up
rounded cent value with exactly two decimal places, groups the integer
part in threes from the right with commas (`groupThousands`), and adds a
fixed currency prefix; in particular `formatMoney 1234.5 = "$1,234.50"`. -/
theorem claim_C8 :
    formatMoney (2469 / 2 : ℚ) = "$1,234.50" ∧
    ∀ v : ℚ, 0 ≤ v →
      formatMoney v = String.mk ('$' ::
        (groupThousands (natToDigitList (round100 v / 100)) ++
          '.' :: pad2Chars (round100 v % 100))) ∧
      (pad2Chars (round100 v % 100)).length = 2 := by
  constructor
  · have h0 : round100 (2469 / 2 : ℚ) = 123450 := by
      rw [round100]
      norm_num
      rfl
    unfold formatMoney toFixed2Chars
    rw [if_neg (by norm_num : ¬ (2469 / 2 : ℚ) < 0), h0]
    decide
  · intro v hv
    have hneg : ¬ v < 0 := not_lt.mpr hv
    obtain ⟨a, b, hab, ha, hb⟩ := pad2Chars_shape
      (show round100 v % 100 < 100 from Nat.mod_lt _ (by norm_num))
    constructor
    · unfold formatMoney toFixed2Chars fixedChars
      rw [if_neg hneg, hab,
        insertCommas_fixed _ (natToDigitList_ne_nil _)
          (natToDigitList_digits _) a b ha hb,
        ins3_eq_group (natToDigitList (round100 v / 100)).length _ le_rfl]
    · rw [hab]
      rfl

/-- Witness for C8 at the concrete amount 1234.5. -/
theorem claim_C8_witness :
    (0 : ℚ) ≤ 2469 / 2 ∧
    formatMoney (2469 / 2 : ℚ) = String.mk ('$' ::
      (groupThousands (natToDigitList (round100 (2469 / 2 : ℚ) / 100)) ++
        '.' :: pad2Chars (round100 (2469 / 2 : ℚ) % 100))) :=
  ⟨by norm_num, (claim_C8.2 (2469 / 2 : ℚ) (by norm_num)).1⟩
